import Mathlib

/-!
Verification development for the ACADEX backend core: visibility policy,
ownership/time-lock guard, review uniqueness and rating aggregation,
contribution scoring, and request fulfillment.  Each definition is a shallow
embedding of the corresponding TypeScript function in the backend sources
(`resourceController.ts`, `leaderboardController.ts` / review controller,
`authController.ts`, `timeHelpers.ts`), with timestamps in integer
milliseconds and database rows as Lean structures.
-/

/-- Resource privacy values, matching the `privacy in ('public','private')`
check constraint of the `resources` table.  `pub` stands for `"public"`,
`priv` for `"private"`. -/
inductive Privacy where
  | pub
  | priv
deriving DecidableEq

/-- Viewer identity as resolved by the identity provider: a stable id plus the
college affiliation recorded in the viewer's profile row. -/
structure Viewer where
  id : String
  affiliation : String
deriving DecidableEq

/-- Projection of a `resources` row to the fields the visibility policy reads:
`uploader_id`, `college` (the affiliation snapshot) and `privacy`. -/
structure ResourceVis where
  uploaderId : String
  college : String
  privacy : Privacy
deriving DecidableEq

/-- Per-row visibility filter of `getResources` (resourceController.ts lines
140-144).  `userId` models `req.user?.id` and `userCollege` the college value
fetched for that user (`null` when absent).  JavaScript truthiness of the two
strings is modelled exactly: the guard `if (!userId || !userCollege) return
false` also fires on empty strings. -/
def resourceListVisible (userId userCollege : Option String) (row : ResourceVis) : Bool :=
  match row.privacy with
  | .pub => true
  | .priv =>
    match userId, userCollege with
    | some u, some c =>
      if u = "" ∨ c = "" then false
      else decide (row.uploaderId = u ∨ row.college = c)
    | _, _ => false

/-- Access check of `getResourceById` (resourceController.ts lines 165-174):
for a private resource, deny when `userId` is falsy, otherwise allow when the
viewer owns the resource or the viewer's profile college (if any) equals the
resource's college; `profile?.college === resource.college` is `some` equality
here. -/
def resourceByIdVisible (userId userCollege : Option String) (r : ResourceVis) : Bool :=
  match r.privacy with
  | .pub => true
  | .priv =>
    match userId with
    | none => false
    | some u =>
      if u = "" then false
      else decide (r.uploaderId = u ∨ userCollege = some r.college)

/-- Modelled from the spec: the visibility contract `canView(viewer, resource)`
of the Visibility Policy Evaluator.  Public resources are visible to everyone
including the anonymous viewer; a private resource is visible iff the viewer
is present and either owns it or shares its affiliation. -/
def canView (viewer : Option Viewer) (r : ResourceVis) : Bool :=
  match r.privacy with
  | .pub => true
  | .priv =>
    match viewer with
    | none => false
    | some v => decide (v.id = r.uploaderId ∨ v.affiliation = r.college)

/-- Lock window length in milliseconds, `LOCK_WINDOW_MS = 24 * 60 * 60 * 1000`
from timeHelpers.ts. -/
def LOCK_WINDOW_MS : Int := 24 * 60 * 60 * 1000

/-- Embedding of `isWithin24Hours` (timeHelpers.ts): true when
`now - createdAt <= LOCK_WINDOW_MS`, with both instants in milliseconds. -/
def isWithin24Hours (now createdAt : Int) : Bool :=
  decide (now - createdAt ≤ LOCK_WINDOW_MS)

/-- Outcomes of the Ownership & Time-Lock Guard. -/
inductive MutOutcome where
  | allowed
  | notOwner
  | lockExpired
deriving DecidableEq

/-- Ownership & Time-Lock Guard `canMutate`: non-owners are rejected first,
then the mutation is allowed exactly when it falls within 24 hours of the
record's creation. -/
def canMutate (viewerId ownerId : String) (createdAt now : Int) : MutOutcome :=
  if viewerId ≠ ownerId then .notOwner
  else if ¬ isWithin24Hours now createdAt then .lockExpired
  else .allowed

/-- Fields of an existing `resources` row read by the update/delete guards:
`uploader_id` and `created_at`. -/
structure ResourceMeta where
  uploaderId : String
  createdAt : Int

/-- Fields of an existing `reviews` row read by the update/delete guards:
`user_id` and `created_at`. -/
structure ReviewMeta where
  userId : String
  createdAt : Int

/-- Guard sequence of `updateResource` (resourceController.ts lines 198-199):
owner check on `uploader_id`, then the 24-hour lock. -/
def updateResourceGuard (uid : String) (m : ResourceMeta) (now : Int) : MutOutcome :=
  if m.uploaderId ≠ uid then .notOwner
  else if ¬ isWithin24Hours now m.createdAt then .lockExpired
  else .allowed

/-- Guard sequence of `deleteResource` (resourceController.ts lines 240-241). -/
def deleteResourceGuard (uid : String) (m : ResourceMeta) (now : Int) : MutOutcome :=
  if m.uploaderId ≠ uid then .notOwner
  else if ¬ isWithin24Hours now m.createdAt then .lockExpired
  else .allowed

/-- Guard sequence of `updateReview` (review controller lines 143-144): owner
check on `user_id`, then the 24-hour lock. -/
def updateReviewGuard (uid : String) (m : ReviewMeta) (now : Int) : MutOutcome :=
  if m.userId ≠ uid then .notOwner
  else if ¬ isWithin24Hours now m.createdAt then .lockExpired
  else .allowed

/-- Guard sequence of `deleteReview` (review controller lines 187-188). -/
def deleteReviewGuard (uid : String) (m : ReviewMeta) (now : Int) : MutOutcome :=
  if m.userId ≠ uid then .notOwner
  else if ¬ isWithin24Hours now m.createdAt then .lockExpired
  else .allowed

/-- Row of the `reviews` table as read and written by the review controller. -/
structure ReviewR where
  id : String
  resourceId : String
  userId : String
  rating : Nat
  comment : String
  createdAt : Int
deriving DecidableEq

/-- Aggregate slice of a `resources` row owned by the rating aggregator:
`average_rating` and `total_ratings`. -/
structure ResourceAgg where
  id : String
  averageRating : ℚ
  totalRatings : Nat
deriving DecidableEq

/-- Durable state visible to the review controller: the `reviews` table and
the aggregate columns of the `resources` table. -/
structure DB where
  reviews : List ReviewR
  resources : List ResourceAgg
deriving DecidableEq

/-- Reviews currently attached to a resource, as selected by
`.from("reviews").select("rating").eq("resource_id", resourceId)`. -/
def reviewsFor (db : DB) (rid : String) : List ReviewR :=
  db.reviews.filter (fun v => decide (v.resourceId = rid))

/-- Modelled from the spec: rounding "to one decimal place (half-up)", the
rounding the spec prescribes for the rating aggregate.  Kept as the spec-side
comparator only: the program's `Number(x.toFixed(1))`, embedded below as
`jsToFixed1`, deviates from it at exact decimal ties whose binary64 value
lies below the tie. -/
def round1 (q : ℚ) : ℚ :=
  (⌊q * 10 + 1 / 2⌋ : ℚ) / 10

/-- Nearest-integer rounding with ties to even, the IEEE-754 default rounding,
applied to a value scaled onto an integer significand grid. -/
def roundHalfEven (x : ℚ) : ℤ :=
  if x - ⌊x⌋ < 1 / 2 then ⌊x⌋
  else if 1 / 2 < x - ⌊x⌋ then ⌊x⌋ + 1
  else if ⌊x⌋ % 2 = 0 then ⌊x⌋ else ⌊x⌋ + 1

/-- Binary64 (IEEE-754 double) value of the exact rational quotient
`sum / count`: round to nearest, ties to even, at 53-bit precision in the
quotient's binade.  IEEE-754 division of exactly representable integer
operands is correctly rounded, so this is the double the JavaScript division
produces.  The program only forms means of ratings that the zod schema and
the `rating between 1 and 5` check constraint keep in [1, 5], so the binades
[1, 2), [2, 4) and [4, 8) handled here cover every mean the code computes;
nonpositive arguments are returned unchanged (0 is exact). -/
def nearestFloat64 (q : ℚ) : ℚ :=
  if q ≤ 0 then q
  else
    let k : Nat := if q < 2 then 52 else if q < 4 then 51 else 50
    (roundHalfEven (q * 2 ^ k) : ℚ) / 2 ^ k

/-- Embedding of `Number(x.toFixed(1))` on the nonnegative double `x`:
ECMA-262 `toFixed` picks the integer n for which n/10 is closest to the
double's exact value, the larger n at a tie — `⌊10 x + 1/2⌋` for x ≥ 0 — and
the value persisted through JSON into the `numeric(3,1)` column is exactly
n/10. -/
def jsToFixed1 (q : ℚ) : ℚ :=
  (⌊nearestFloat64 q * 10 + 1 / 2⌋ : ℚ) / 10

/-- Number of reviews currently attached to a resource. -/
def specCount (db : DB) (rid : String) : Nat :=
  (reviewsFor db rid).length

/-- Mean rating of the reviews currently attached to a resource as the
program computes it — the binary64 mean rounded by `toFixed(1)` — and 0 when
there are none: the value `refreshResourceRating` recomputes from scratch. -/
def specAvg (db : DB) (rid : String) : ℚ :=
  if 0 < specCount db rid then
    jsToFixed1 ((((reviewsFor db rid).map (fun v => v.rating)).sum : ℚ) / (specCount db rid : ℚ))
  else 0

/-- Modelled from the spec: the aggregate value the spec's contract
prescribes, the arithmetic mean rounded half-up to one decimal and 0 with no
reviews — stated for comparison with what the code stores (`specAvg`). -/
def specAvgHalfUp (db : DB) (rid : String) : ℚ :=
  if 0 < specCount db rid then
    round1 ((((reviewsFor db rid).map (fun v => v.rating)).sum : ℚ) / (specCount db rid : ℚ))
  else 0

/-- Embedding of `refreshResourceRating` (review controller lines 57-73) on
the happy path: read all reviews of the resource, recompute
`average_rating`/`total_ratings`, and write them to every `resources` row with
that id. -/
def refreshResourceRating (db : DB) (rid : String) : DB :=
  let reviews := reviewsFor db rid
  let totalRatings := reviews.length
  let averageRating : ℚ :=
    if 0 < totalRatings then
      jsToFixed1 (((reviews.map (fun v => v.rating)).sum : ℚ) / (totalRatings : ℚ))
    else 0
  { db with
    resources := db.resources.map (fun r =>
      if r.id = rid then { r with averageRating := averageRating, totalRatings := totalRatings }
      else r) }

/-- Outcomes a review mutation reports to the calling layer, one per response
branch of the review controller (201/200 success, 400, 409, 404, 403 owner,
403 lock). -/
inductive ReviewOutcome where
  | created
  | updated
  | deleted
  | validationFailed
  | duplicateReview
  | notFound
  | notOwner
  | lockExpired
deriving DecidableEq

/-- Embedding of `createReview` (review controller lines 76-125) on the happy
database path: validate the rating (zod `int().min(1).max(5)`), reject a
duplicate (resourceId, reviewerId) pair with 409, otherwise insert the review
(`newId` models `gen_random_uuid()`, `now` the `created_at` default) and
refresh the resource aggregate. -/
def createReview (db : DB) (uid rid : String) (rating : Nat) (comment : String)
    (now : Int) (newId : String) : DB × ReviewOutcome :=
  if ¬ (1 ≤ rating ∧ rating ≤ 5) then (db, .validationFailed)
  else
    match db.reviews.find? (fun v => decide (v.resourceId = rid ∧ v.userId = uid)) with
    | some _ => (db, .duplicateReview)
    | none =>
      let db' : DB := { db with reviews := db.reviews ++ [⟨newId, rid, uid, rating, comment, now⟩] }
      (refreshResourceRating db' rid, .created)

/-- Embedding of `updateReview` (review controller lines 128-173): locate the
single review row with the given id (`.single()`), apply the owner and
24-hour-lock guards, patch `rating`/`comment` where provided, and refresh the
aggregate of the review's resource. -/
def updateReview (db : DB) (uid reviewId : String) (rating? : Option Nat)
    (comment? : Option String) (now : Int) : DB × ReviewOutcome :=
  if ¬ (∀ rt ∈ rating?, 1 ≤ rt ∧ rt ≤ 5) then (db, .validationFailed)
  else
    match db.reviews.filter (fun v => decide (v.id = reviewId)) with
    | [v] =>
      if v.userId ≠ uid then (db, .notOwner)
      else if ¬ isWithin24Hours now v.createdAt then (db, .lockExpired)
      else
        let db' : DB := { db with
          reviews := db.reviews.map (fun w =>
            if w.id = reviewId then
              { w with rating := rating?.getD w.rating, comment := comment?.getD w.comment }
            else w) }
        (refreshResourceRating db' v.resourceId, .updated)
    | _ => (db, .notFound)

/-- Embedding of `deleteReview` (review controller lines 176-198): locate the
single review row with the given id, apply the owner and 24-hour-lock guards,
delete the row, and refresh the aggregate of the review's resource. -/
def deleteReview (db : DB) (uid reviewId : String) (now : Int) : DB × ReviewOutcome :=
  match db.reviews.filter (fun v => decide (v.id = reviewId)) with
  | [v] =>
    if v.userId ≠ uid then (db, .notOwner)
    else if ¬ isWithin24Hours now v.createdAt then (db, .lockExpired)
    else
      let db' : DB := { db with reviews := db.reviews.filter (fun w => decide (¬ w.id = reviewId)) }
      (refreshResourceRating db' v.resourceId, .deleted)
  | _ => (db, .notFound)

/-- One review mutation request, carrying the parameters the corresponding
controller receives. -/
inductive ReviewOp where
  | create (uid rid : String) (rating : Nat) (comment : String) (now : Int) (newId : String)
  | update (uid reviewId : String) (rating? : Option Nat) (comment? : Option String) (now : Int)
  | delete (uid reviewId : String) (now : Int)

/-- State reached after one review mutation (the outcome is discarded;
rejected mutations leave the state unchanged). -/
def stepReview (db : DB) (op : ReviewOp) : DB :=
  match op with
  | .create uid rid rating comment now newId => (createReview db uid rid rating comment now newId).1
  | .update uid reviewId rating? comment? now => (updateReview db uid reviewId rating? comment? now).1
  | .delete uid reviewId now => (deleteReview db uid reviewId now).1

/-- Aggregate consistency: every `resources` row stores exactly the rounded
mean and the count of the reviews currently attached to it. -/
def AggOK (db : DB) : Prop :=
  ∀ r ∈ db.resources, r.averageRating = specAvg db r.id ∧ r.totalRatings = specCount db r.id

/-- Review uniqueness: no two review rows share the same
(resourceId, reviewerId) pair. -/
def PairOK (db : DB) : Prop :=
  db.reviews.Pairwise (fun a b => ¬ (a.resourceId = b.resourceId ∧ a.userId = b.userId))

/-- Review-id uniqueness is not assumed; instead `updateReview` and
`deleteReview` act only when exactly one row matches, as `.single()` does.
The state invariant combines aggregate consistency and pair uniqueness. -/
def DBInv (db : DB) : Prop :=
  AggOK db ∧ PairOK db

instance : DecidablePred AggOK := fun db =>
  List.decidableBAll _ db.resources

instance : DecidablePred PairOK := fun db =>
  List.instDecidablePairwise db.reviews

instance : DecidablePred DBInv := fun db =>
  decidable_of_iff (AggOK db ∧ PairOK db) Iff.rfl

/-- Embedding of `refreshResourceRating` with its two fallible database calls
made explicit.  The source destructures only `data` from the reviews select,
so a failed select (`selOk = false`) silently yields `reviews = null`, hence
`totalRatings = 0` and `averageRating = 0`; the result of the resources update
is not inspected at all, so a failed update (`updOk = false`) silently leaves
the stored aggregate unchanged.  Neither failure is reported to the caller. -/
def refreshResourceRatingF (selOk updOk : Bool) (db : DB) (rid : String) : DB :=
  let reviews? : Option (List ReviewR) := if selOk then some (reviewsFor db rid) else none
  let totalRatings := (reviews?.map List.length).getD 0
  let averageRating : ℚ :=
    if 0 < totalRatings then
      jsToFixed1 ((((reviews?.getD []).map (fun v => v.rating)).sum : ℚ) / (totalRatings : ℚ))
    else 0
  if updOk then
    { db with
      resources := db.resources.map (fun r =>
        if r.id = rid then { r with averageRating := averageRating, totalRatings := totalRatings }
        else r) }
  else db

/-- Embedding of `createReview` with the fallibility of the aggregate refresh
made explicit: after a successful insert the controller runs
`await refreshResourceRating(...)` and then returns 201 unconditionally, so
the outcome does not depend on `selOk`/`updOk`. -/
def createReviewF (selOk updOk : Bool) (db : DB) (uid rid : String) (rating : Nat)
    (comment : String) (now : Int) (newId : String) : DB × ReviewOutcome :=
  if ¬ (1 ≤ rating ∧ rating ≤ 5) then (db, .validationFailed)
  else
    match db.reviews.find? (fun v => decide (v.resourceId = rid ∧ v.userId = uid)) with
    | some _ => (db, .duplicateReview)
    | none =>
      let db' : DB := { db with reviews := db.reviews ++ [⟨newId, rid, uid, rating, comment, now⟩] }
      (refreshResourceRatingF selOk updOk db' rid, .created)

/-- Profile fields read by `getLeaderboard`. -/
structure ProfileLB where
  id : String
  name : String
  college : String
  branch : String
deriving DecidableEq

/-- Resource fields read by `getLeaderboard`: `uploader_id` and `privacy`. -/
structure ResourceLB where
  uploaderId : String
  privacy : Privacy
deriving DecidableEq

/-- One leaderboard entry as built by `getLeaderboard`. -/
structure LBEntry where
  id : String
  name : String
  college : String
  branch : String
  points : Nat
deriving DecidableEq

/-- Points one resource contributes, `item.privacy === "public" ? 10 : 5`. -/
def scoreOf (p : Privacy) : Nat :=
  if p = .pub then 10 else 5

/-- Association-list lookup modelling `Map.get`. -/
def lookupA : List (String × Nat) → String → Option Nat
  | [], _ => none
  | (k', v') :: rest, k => if k' = k then some v' else lookupA rest k

/-- Association-list write modelling `Map.set`: overwrite the existing entry
for the key, or append a new one. -/
def setA : List (String × Nat) → String → Nat → List (String × Nat)
  | [], k, v => [(k, v)]
  | (k', v') :: rest, k, v =>
    if k' = k then (k, v) :: rest else (k', v') :: setA rest k v

/-- Embedding of the `pointsByUser` accumulation loop of `getLeaderboard`
(leaderboardController.ts lines 19-24). -/
def pointsByUser (resources : List ResourceLB) : List (String × Nat) :=
  resources.foldl
    (fun m item => setA m item.uploaderId ((lookupA m item.uploaderId).getD 0 + scoreOf item.privacy))
    []

/-- Total points a given uploader earns from a resource collection: the sum of
`scoreOf` over the resources they own. -/
def pointsSum (uid : String) (resources : List ResourceLB) : Nat :=
  ((resources.filter (fun r => decide (r.uploaderId = uid))).map (fun r => scoreOf r.privacy)).sum

/-- Embedding of the leaderboard construction of `getLeaderboard`
(leaderboardController.ts lines 26-34): map every profile to an entry whose
points come from `pointsByUser` (0 when absent), then sort by
`(a, b) => b.points - a.points`, i.e. descending points. -/
def computeLeaderboard (profiles : List ProfileLB) (resources : List ResourceLB) : List LBEntry :=
  let m := pointsByUser resources
  (profiles.map (fun p =>
    { id := p.id, name := p.name, college := p.college, branch := p.branch,
      points := (lookupA m p.id).getD 0 : LBEntry })).mergeSort
    (fun a b => decide (b.points ≤ a.points))

/-- Status of a `resource_requests` row; `opened` models the `'open'` value. -/
inductive ReqStatus where
  | opened
  | fulfilled
deriving DecidableEq

/-- Row of the `resource_requests` table as touched by `fulfillRequest`. -/
structure RequestRow where
  id : String
  requesterId : String
  status : ReqStatus
  fulfilledResourceId : Option String
deriving DecidableEq

/-- Embedding of `fulfillRequest` (resourceController.ts lines 314-326) for an
authenticated caller with a non-empty `resourceId`: update every request row
whose id matches, setting `status = 'fulfilled'` and
`fulfilled_resource_id = resourceId`, and respond 200 — the row count is never
inspected, so the same 200 is returned when no row matches. -/
def fulfillRequest (requests : List RequestRow) (reqId resourceId : String) :
    List RequestRow × Nat :=
  (requests.map (fun q =>
    if q.id = reqId then { q with status := .fulfilled, fulfilledResourceId := some resourceId }
    else q), 200)

/-- Full `resources` row with every column `updateResource` may touch plus the
columns it must leave alone. -/
structure ResourceRow where
  id : String
  uploaderId : String
  title : String
  subject : String
  semester : String
  course : String
  branch : String
  rtype : String
  year : String
  tags : List String
  description : String
  privacy : Privacy
  fileUrl : Option String
  driveLink : Option String
  college : String
  averageRating : ℚ
  totalRatings : Nat
  downloads : Nat
  isExamImportant : Bool
  createdAt : Int
deriving DecidableEq

/-- Parsed body of a resource update (`resourceUpdateSchema`, every field
optional); `fileUrl`/`driveLink` are nullable, hence doubly optional. -/
structure ResourceUpdateInput where
  title : Option String
  subject : Option String
  semester : Option String
  course : Option String
  branch : Option String
  rtype : Option String
  year : Option String
  tags : Option (List String)
  description : Option String
  privacy : Option Privacy
  fileUrl : Option (Option String)
  driveLink : Option (Option String)
  isExamImportant : Option Bool

/-- Embedding of the update object of `updateResource` (resourceController.ts
lines 204-218): each provided field overwrites the stored one, every other
column of the row is untouched. -/
def applyResourceUpdate (p : ResourceUpdateInput) (r : ResourceRow) : ResourceRow :=
  { r with
    title := p.title.getD r.title
    subject := p.subject.getD r.subject
    semester := p.semester.getD r.semester
    course := p.course.getD r.course
    branch := p.branch.getD r.branch
    rtype := p.rtype.getD r.rtype
    year := p.year.getD r.year
    tags := p.tags.getD r.tags
    description := p.description.getD r.description
    privacy := p.privacy.getD r.privacy
    fileUrl := p.fileUrl.getD r.fileUrl
    driveLink := p.driveLink.getD r.driveLink
    isExamImportant := p.isExamImportant.getD r.isExamImportant }

/-- Row of the `profiles` table. -/
structure ProfileRow where
  id : String
  name : String
  college : String
  course : String
  branch : String
  semester : String
  profileImageUrl : Option String
deriving DecidableEq

/-- Parsed body of a profile update (`updateProfileSchema`). -/
structure ProfileUpdateInput where
  name : Option String
  college : Option String
  course : Option String
  branch : Option String
  semester : Option String
  profileImageUrl : Option (Option String)

/-- Embedding of the update object of `updateProfile` (authController.ts lines
173-182). -/
def applyProfileUpdate (p : ProfileUpdateInput) (pr : ProfileRow) : ProfileRow :=
  { pr with
    name := p.name.getD pr.name
    college := p.college.getD pr.college
    course := p.course.getD pr.course
    branch := p.branch.getD pr.branch
    semester := p.semester.getD pr.semester
    profileImageUrl := p.profileImageUrl.getD pr.profileImageUrl }

/-- Profiles and resources tables together, for stating that a profile update
does not touch the resources table. -/
structure Directory where
  profiles : List ProfileRow
  resources : List ResourceRow
deriving DecidableEq

/-- Embedding of the state change of `updateProfile`: it issues one update on
the `profiles` table, filtered to the caller's id, and touches nothing else. -/
def updateProfileOp (d : Directory) (uid : String) (p : ProfileUpdateInput) : Directory :=
  { d with
    profiles := d.profiles.map (fun pr => if pr.id = uid then applyProfileUpdate p pr else pr) }

/-- Concrete state exhibiting the `toFixed` rounding of the aggregate:
nineteen reviews of one resource by distinct reviewers (sixteen with rating 1,
three with rating 2, sum 22) together with the aggregate the program stores
for them — the mean 22/19 rounds to 1.2 under both `toFixed`-on-double and
half-up, so this state is uncontroversially consistent. -/
def ratingTieState : DB :=
  { reviews :=
      [⟨"v01", "r", "u01", 1, "", 0⟩, ⟨"v02", "r", "u02", 1, "", 0⟩,
       ⟨"v03", "r", "u03", 1, "", 0⟩, ⟨"v04", "r", "u04", 1, "", 0⟩,
       ⟨"v05", "r", "u05", 1, "", 0⟩, ⟨"v06", "r", "u06", 1, "", 0⟩,
       ⟨"v07", "r", "u07", 1, "", 0⟩, ⟨"v08", "r", "u08", 1, "", 0⟩,
       ⟨"v09", "r", "u09", 1, "", 0⟩, ⟨"v10", "r", "u10", 1, "", 0⟩,
       ⟨"v11", "r", "u11", 1, "", 0⟩, ⟨"v12", "r", "u12", 1, "", 0⟩,
       ⟨"v13", "r", "u13", 1, "", 0⟩, ⟨"v14", "r", "u14", 1, "", 0⟩,
       ⟨"v15", "r", "u15", 1, "", 0⟩, ⟨"v16", "r", "u16", 1, "", 0⟩,
       ⟨"v17", "r", "u17", 2, "", 0⟩, ⟨"v18", "r", "u18", 2, "", 0⟩,
       ⟨"v19", "r", "u19", 2, "", 0⟩],
    resources := [⟨"r", 12 / 10, 19⟩] }

/-- State after inserting a twentieth review with rating 1, as `createReview`
builds it just before refreshing the aggregate: twenty ratings summing 23,
exact mean 1.15. -/
def ratingTieState' : DB :=
  { ratingTieState with
    reviews := ratingTieState.reviews ++ [⟨"v20", "r", "u20", 1, "", 0⟩] }

/-- Refreshing an aggregate does not touch the reviews table. -/
theorem refresh_reviews_eq (db : DB) (rid : String) :
    (refreshResourceRating db rid).reviews = db.reviews := rfl

/-- The recomputed count depends only on the reviews table. -/
theorem specCount_eq_of_reviews {db1 db2 : DB} (h : db1.reviews = db2.reviews) (x : String) :
    specCount db1 x = specCount db2 x := by
  simp [specCount, reviewsFor, h]

/-- The recomputed average depends only on the reviews table. -/
theorem specAvg_eq_of_reviews {db1 db2 : DB} (h : db1.reviews = db2.reviews) (x : String) :
    specAvg db1 x = specAvg db2 x := by
  simp [specAvg, specCount, reviewsFor, h]

/-- Refreshing resource `rid` restores aggregate consistency provided every
other resource row was already consistent. -/
theorem AggOK_refresh (db : DB) (rid : String)
    (h : ∀ r ∈ db.resources, r.id ≠ rid →
      r.averageRating = specAvg db r.id ∧ r.totalRatings = specCount db r.id) :
    AggOK (refreshResourceRating db rid) := by
  intro r' hr'
  have hrev : (refreshResourceRating db rid).reviews = db.reviews := rfl
  obtain ⟨r, hr, rfl⟩ := List.mem_map.1 hr'
  rw [specAvg_eq_of_reviews hrev, specCount_eq_of_reviews hrev]
  by_cases hid : r.id = rid
  · simp only [hid, if_pos rfl]
    exact ⟨by simp [specAvg, specCount, reviewsFor], by simp [specCount, reviewsFor]⟩
  · simp only [if_neg hid]
    exact h r hr hid

/-- Appending a review of a different resource does not change the reviews
attached to `t`. -/
theorem reviewsFor_append_other (db : DB) (x : ReviewR) (t : String) (hx : ¬ x.resourceId = t) :
    reviewsFor { db with reviews := db.reviews ++ [x] } t = reviewsFor db t := by
  simp [reviewsFor, List.filter_append, hx]

/-- Mapping a function that either fixes an element or keeps it (and its
image) outside the filter commutes with the filter. -/
theorem filter_map_eq_filter {α : Type} {l : List α} {f : α → α} {q : α → Bool}
    (h : ∀ w ∈ l, f w = w ∨ (q w = false ∧ q (f w) = false)) :
    (l.map f).filter q = l.filter q := by
  induction l with
  | nil => rfl
  | cons a l ih =>
    have ha := h a (List.mem_cons_self a l)
    have ih' := ih (fun w hw => h w (List.mem_cons_of_mem a hw))
    rcases ha with ha | ⟨ha1, ha2⟩
    · simp only [List.map_cons, List.filter_cons, ha, ih']
    · simp only [List.map_cons, List.filter_cons, ha1, ha2, ih', if_neg (by decide : ¬ false = true)]

/-- Equality of the attached-review lists transfers the recomputed average. -/
theorem specAvg_eq_of_reviewsFor {db1 db2 : DB} {t : String}
    (h : reviewsFor db1 t = reviewsFor db2 t) : specAvg db1 t = specAvg db2 t := by
  simp [specAvg, specCount, h]

/-- Equality of the attached-review lists transfers the recomputed count. -/
theorem specCount_eq_of_reviewsFor {db1 db2 : DB} {t : String}
    (h : reviewsFor db1 t = reviewsFor db2 t) : specCount db1 t = specCount db2 t := by
  simp [specCount, h]

/-- A successful or rejected `createReview` preserves the state invariant. -/
theorem createReview_fst_DBInv (db : DB) (uid rid : String) (rating : Nat) (comment : String)
    (now : Int) (newId : String) (h : DBInv db) :
    DBInv (createReview db uid rid rating comment now newId).1 := by
  unfold createReview
  split
  · exact h
  · split
    · exact h
    · rename_i hval hfind
      set x : ReviewR := ⟨newId, rid, uid, rating, comment, now⟩ with hx
      set db' : DB := { db with reviews := db.reviews ++ [x] } with hdb'
      have hnone := List.find?_eq_none.1 hfind
      constructor
      · apply AggOK_refresh
        intro r hr hrid
        have hfor : reviewsFor db' r.id = reviewsFor db r.id := by
          apply reviewsFor_append_other
          simp [hx]
          exact fun hc => hrid hc.symm
        have := h.1 r hr
        exact ⟨(specAvg_eq_of_reviewsFor hfor).trans this.1.symm ▸ this.1.trans (specAvg_eq_of_reviewsFor hfor).symm,
               this.2.trans (specCount_eq_of_reviewsFor hfor).symm⟩
      · have hpair := h.2
        show List.Pairwise _ (db.reviews ++ [x])
        rw [List.pairwise_append]
        refine ⟨hpair, List.pairwise_singleton _ _, ?_⟩
        intro a ha b hb
        have hb' : b = x := List.mem_singleton.1 hb
        subst hb'
        intro hab
        exact hnone a ha (by simpa [hx] using hab)

/-- When exactly one review row matches an id filter (the `.single()` read),
that row is in the table, has the id, and is the only row with it. -/
theorem single_filter_match {l : List ReviewR} {reviewId : String} {v : ReviewR}
    (h : l.filter (fun w => decide (w.id = reviewId)) = [v]) :
    v ∈ l ∧ v.id = reviewId ∧ ∀ w ∈ l, w.id = reviewId → w = v := by
  have hv : v ∈ l.filter (fun w => decide (w.id = reviewId)) := by
    rw [h]; exact List.mem_singleton.2 rfl
  obtain ⟨hvl, hvp⟩ := List.mem_filter.1 hv
  refine ⟨hvl, of_decide_eq_true hvp, ?_⟩
  intro w hw hwid
  have hwf : w ∈ l.filter (fun w => decide (w.id = reviewId)) :=
    List.mem_filter.2 ⟨hw, by simp [hwid]⟩
  rw [h] at hwf
  exact List.mem_singleton.1 hwf

/-- Refreshing the resource of review `v` after rewriting the reviews table
with a map that preserves every row's resource and reviewer, and fixes every
row other than `v`, preserves the state invariant. -/
theorem DBInv_refresh_map (db : DB) (v : ReviewR) (g : ReviewR → ReviewR)
    (hg : ∀ w, (g w).resourceId = w.resourceId ∧ (g w).userId = w.userId)
    (hfix : ∀ w ∈ db.reviews, g w = w ∨ w = v)
    (hinv : DBInv db) :
    DBInv (refreshResourceRating { db with reviews := db.reviews.map g } v.resourceId) := by
  set db' : DB := { db with reviews := db.reviews.map g } with hdb'
  constructor
  · apply AggOK_refresh
    intro r hr hrid
    have hr' : r ∈ db.resources := hr
    have hfor : reviewsFor db' r.id = reviewsFor db r.id := by
      apply filter_map_eq_filter
      intro w hw
      rcases hfix w hw with hwf | hwv
      · exact Or.inl hwf
      · subst hwv
        refine Or.inr ⟨?_, ?_⟩
        · exact decide_eq_false (fun hc => hrid hc.symm)
        · rw [(hg w).1]
          exact decide_eq_false (fun hc => hrid hc.symm)
    have := hinv.1 r hr'
    exact ⟨this.1.trans (specAvg_eq_of_reviewsFor hfor).symm,
           this.2.trans (specCount_eq_of_reviewsFor hfor).symm⟩
  · show List.Pairwise _ (db.reviews.map g)
    rw [List.pairwise_map]
    apply hinv.2.imp
    intro a b hab
    rw [(hg a).1, (hg a).2, (hg b).1, (hg b).2]
    exact hab

/-- Refreshing the resource of review `v` after deleting rows (all of them
equal to `v`) from the reviews table preserves the state invariant. -/
theorem DBInv_refresh_filter (db : DB) (v : ReviewR) (keep : ReviewR → Bool)
    (hq : ∀ w ∈ db.reviews, keep w = false → w = v)
    (hinv : DBInv db) :
    DBInv (refreshResourceRating { db with reviews := db.reviews.filter keep } v.resourceId) := by
  set db' : DB := { db with reviews := db.reviews.filter keep } with hdb'
  constructor
  · apply AggOK_refresh
    intro r hr hrid
    have hr' : r ∈ db.resources := hr
    have hfor : reviewsFor db' r.id = reviewsFor db r.id := by
      show (db.reviews.filter keep).filter (fun w => decide (w.resourceId = r.id))
        = db.reviews.filter (fun w => decide (w.resourceId = r.id))
      rw [List.filter_filter]
      apply List.filter_congr
      intro w hw
      cases hk : keep w
      · have hwv := hq w hw hk
        subst hwv
        simp [decide_eq_false (fun hc : w.resourceId = r.id => hrid hc.symm)]
      · simp
    have := hinv.1 r hr'
    exact ⟨this.1.trans (specAvg_eq_of_reviewsFor hfor).symm,
           this.2.trans (specCount_eq_of_reviewsFor hfor).symm⟩
  · show List.Pairwise _ (db.reviews.filter keep)
    exact hinv.2.sublist (List.filter_sublist db.reviews)

/-- A successful or rejected `updateReview` preserves the state invariant. -/
theorem updateReview_fst_DBInv (db : DB) (uid reviewId : String) (rating? : Option Nat)
    (comment? : Option String) (now : Int) (h : DBInv db) :
    DBInv (updateReview db uid reviewId rating? comment? now).1 := by
  unfold updateReview
  split
  · exact h
  · split
    · rename_i v hfil
      obtain ⟨hvl, hvid, huniq⟩ := single_filter_match hfil
      split
      · exact h
      · split
        · exact h
        · apply DBInv_refresh_map db v
          · intro w
            constructor <;> (dsimp only; split <;> rfl)
          · intro w hw
            by_cases hwid : w.id = reviewId
            · exact Or.inr (huniq w hw hwid)
            · exact Or.inl (by simp [hwid])
          · exact h
    · exact h

/-- A successful or rejected `deleteReview` preserves the state invariant. -/
theorem deleteReview_fst_DBInv (db : DB) (uid reviewId : String) (now : Int) (h : DBInv db) :
    DBInv (deleteReview db uid reviewId now).1 := by
  unfold deleteReview
  split
  · rename_i v hfil
    obtain ⟨hvl, hvid, huniq⟩ := single_filter_match hfil
    split
    · exact h
    · split
      · exact h
      · apply DBInv_refresh_filter db v
        · intro w hw hk
          have : ¬ (¬ w.id = reviewId) := by
            intro hne
            simp [hne] at hk
          exact huniq w hw (not_not.1 this)
        · exact h
  · exact h

/-- One review mutation preserves the state invariant. -/
theorem stepReview_DBInv (db : DB) (op : ReviewOp) (h : DBInv db) :
    DBInv (stepReview db op) := by
  cases op with
  | create uid rid rating comment now newId => exact createReview_fst_DBInv db uid rid rating comment now newId h
  | update uid reviewId rating? comment? now => exact updateReview_fst_DBInv db uid reviewId rating? comment? now h
  | delete uid reviewId now => exact deleteReview_fst_DBInv db uid reviewId now h

/-- Any sequence of review mutations preserves the state invariant. -/
theorem foldl_stepReview_DBInv (ops : List ReviewOp) (db : DB) (h : DBInv db) :
    DBInv (ops.foldl stepReview db) := by
  induction ops generalizing db with
  | nil => exact h
  | cons op ops ih => exact ih (stepReview db op) (stepReview_DBInv db op h)

/-- Lookup after a `Map.set` write: the written key reads back the written
value, every other key is untouched. -/
theorem lookupA_setA (m : List (String × Nat)) (k : String) (v : Nat) (k' : String) :
    lookupA (setA m k v) k' = if k' = k then some v else lookupA m k' := by
  induction m with
  | nil =>
    by_cases h : k' = k
    · subst h; simp [setA, lookupA]
    · simp [setA, lookupA, h, Ne.symm h]
  | cons hd tl ih =>
    by_cases hk : hd.1 = k
    · rw [show setA (hd :: tl) k v = (k, v) :: tl from by simp [setA, hk]]
      by_cases h : k' = k
      · subst h; simp [lookupA]
      · have hk' : ¬ hd.1 = k' := fun hc => h (hc.symm.trans hk)
        simp [lookupA, h, Ne.symm h, hk']
    · rw [show setA (hd :: tl) k v = hd :: setA tl k v from by simp [setA, hk]]
      by_cases h2 : hd.1 = k'
      · have hne : ¬ k' = k := fun hc => hk (h2.trans hc)
        simp [lookupA, h2, hne]
      · simp [lookupA, h2, ih]

/-- Accumulating the scoring loop over a resource list adds, for every
uploader, exactly the sum of the scores of their resources. -/
theorem lookupA_scoreFold (rs : List ResourceLB) (m : List (String × Nat)) (uid : String) :
    (lookupA (rs.foldl
      (fun m item => setA m item.uploaderId ((lookupA m item.uploaderId).getD 0 + scoreOf item.privacy))
      m) uid).getD 0
    = (lookupA m uid).getD 0 + pointsSum uid rs := by
  induction rs generalizing m with
  | nil => simp [pointsSum]
  | cons r rs ih =>
    simp only [List.foldl_cons]
    rw [ih]
    by_cases h : r.uploaderId = uid
    · have h1 : (lookupA (setA m r.uploaderId ((lookupA m r.uploaderId).getD 0 + scoreOf r.privacy)) uid).getD 0
          = (lookupA m uid).getD 0 + scoreOf r.privacy := by
        rw [lookupA_setA, if_pos h.symm]
        simp [h]
      rw [h1]
      have h2 : pointsSum uid (r :: rs) = scoreOf r.privacy + pointsSum uid rs := by
        simp [pointsSum, List.filter_cons, h]
      rw [h2]
      omega
    · have h1 : (lookupA (setA m r.uploaderId ((lookupA m r.uploaderId).getD 0 + scoreOf r.privacy)) uid).getD 0
          = (lookupA m uid).getD 0 := by
        rw [lookupA_setA, if_neg (fun hc : uid = r.uploaderId => h hc.symm)]
      rw [h1]
      have h2 : pointsSum uid (r :: rs) = pointsSum uid rs := by
        simp [pointsSum, List.filter_cons, h]
      rw [h2]

/-- The accumulated points map reads back exactly `pointsSum`. -/
theorem lookupA_pointsByUser (rs : List ResourceLB) (uid : String) :
    (lookupA (pointsByUser rs) uid).getD 0 = pointsSum uid rs := by
  have := lookupA_scoreFold rs [] uid
  simpa [pointsByUser, lookupA] using this

/-- Permuting the resource collection does not change any uploader's total. -/
theorem pointsSum_perm (uid : String) {rs rs' : List ResourceLB} (h : rs.Perm rs') :
    pointsSum uid rs = pointsSum uid rs' := by
  unfold pointsSum
  exact ((h.filter _).map _).sum_eq

/-- The unsorted leaderboard entries are exactly the profiles mapped to their
points. -/
theorem leaderboard_entries_eq (profiles : List ProfileLB) (resources : List ResourceLB) :
    profiles.map (fun p =>
      { id := p.id, name := p.name, college := p.college, branch := p.branch,
        points := (lookupA (pointsByUser resources) p.id).getD 0 : LBEntry })
    = profiles.map (fun p =>
      { id := p.id, name := p.name, college := p.college, branch := p.branch,
        points := pointsSum p.id resources : LBEntry }) := by
  apply List.map_congr_left
  intro p _
  rw [lookupA_pointsByUser]

/-- C4: the ownership/time-lock guard yields Allowed at one second before the
24-hour boundary and LockExpired at one second after it, yields NotOwner
exactly for non-owners regardless of time, and the guard sequences of resource
update, resource delete, review update and review delete all equal the one
`canMutate` anchored to the record's original creation time. -/
theorem mutation_guard_uniform (ownerId viewerId : String) (t0 createdAt now : Int)
    (m : ResourceMeta) (mr : ReviewMeta) :
    canMutate ownerId ownerId t0 (t0 + LOCK_WINDOW_MS - 1000) = .allowed
    ∧ canMutate ownerId ownerId t0 (t0 + LOCK_WINDOW_MS + 1000) = .lockExpired
    ∧ (canMutate viewerId ownerId createdAt now = .notOwner ↔ viewerId ≠ ownerId)
    ∧ updateResourceGuard viewerId m now = canMutate viewerId m.uploaderId m.createdAt now
    ∧ deleteResourceGuard viewerId m now = canMutate viewerId m.uploaderId m.createdAt now
    ∧ updateReviewGuard viewerId mr now = canMutate viewerId mr.userId mr.createdAt now
    ∧ deleteReviewGuard viewerId mr now = canMutate viewerId mr.userId mr.createdAt now := by
  have h1 : isWithin24Hours (t0 + LOCK_WINDOW_MS - 1000) t0 = true := by
    simp [isWithin24Hours]; omega
  have h2 : isWithin24Hours (t0 + LOCK_WINDOW_MS + 1000) t0 = false := by
    simp [isWithin24Hours, LOCK_WINDOW_MS]
    omega
  have hg : ∀ (a b : String) (c n : Int),
      (if b ≠ a then MutOutcome.notOwner
       else if ¬ isWithin24Hours n c then MutOutcome.lockExpired
       else MutOutcome.allowed) = canMutate a b c n := by
    intro a b c n
    by_cases hab : a = b
    · subst hab; simp [canMutate]
    · simp [canMutate, hab, Ne.symm hab]
  refine ⟨by simp [canMutate, h1], by simp [canMutate, h2], ?_,
    hg viewerId m.uploaderId m.createdAt now, hg viewerId m.uploaderId m.createdAt now,
    hg viewerId mr.userId mr.createdAt now, hg viewerId mr.userId mr.createdAt now⟩
  constructor
  · intro h
    by_cases hv : viewerId = ownerId
    · subst hv
      simp only [canMutate, ne_eq, not_true_eq_false, if_false] at h
      revert h
      split <;> simp
    · exact hv
  · intro hne
    simp [canMutate, hne]

/-- C10: the 24-hour lock boundary is inclusive: a mutation at exactly
creation time plus 24 hours is still Allowed, LockExpired occurs exactly when
strictly more than LOCK_WINDOW_MS milliseconds have elapsed, and
`isWithin24Hours` holds exactly on elapsed times up to 24*60*60*1000 ms. -/
theorem lock_boundary_inclusive (o : String) (t0 now : Int) :
    canMutate o o t0 (t0 + LOCK_WINDOW_MS) = .allowed
    ∧ (canMutate o o t0 now = .lockExpired ↔ LOCK_WINDOW_MS < now - t0)
    ∧ (isWithin24Hours now t0 = true ↔ now - t0 ≤ 24 * 60 * 60 * 1000) := by
  refine ⟨?_, ?_, ?_⟩
  · have h1 : isWithin24Hours (t0 + LOCK_WINDOW_MS) t0 = true := by
      simp [isWithin24Hours]
    simp [canMutate, h1]
  · by_cases h : now - t0 ≤ LOCK_WINDOW_MS
    · have hw : isWithin24Hours now t0 = true := by simp [isWithin24Hours, h]
      simp [canMutate, hw]
      omega
    · have hw : isWithin24Hours now t0 = false := by simp [isWithin24Hours, h]
      simp [canMutate, hw]
      omega
  · simp [isWithin24Hours, LOCK_WINDOW_MS]

/-- C1: for any viewer whose resolved identity has a non-empty id and a
non-empty affiliation (the shape the identity provider and the non-null,
length-validated profile columns guarantee), the per-row filter of
`getResources` and the access check of `getResourceById` both compute exactly
the `canView` contract; moreover `canView` holds unconditionally on public
resources, and on private resources it holds iff the viewer is present and
owns the resource or shares its affiliation (so the anonymous viewer never
sees a private resource). -/
theorem canView_contract (viewer : Option Viewer) (r : ResourceVis)
    (hwf : viewer.all (fun v => decide (¬ v.id = "" ∧ ¬ v.affiliation = "")) = true) :
    resourceListVisible (viewer.map Viewer.id) (viewer.map Viewer.affiliation) r = canView viewer r
    ∧ resourceByIdVisible (viewer.map Viewer.id) (viewer.map Viewer.affiliation) r = canView viewer r
    ∧ (r.privacy = .pub → canView viewer r = true)
    ∧ (r.privacy = .priv →
        (canView viewer r = true ↔
          ∃ v, viewer = some v ∧ (v.id = r.uploaderId ∨ v.affiliation = r.college))) := by
  rcases r with ⟨up, col, pv⟩
  cases viewer with
  | none =>
    cases pv <;> simp [resourceListVisible, resourceByIdVisible, canView]
  | some v =>
    obtain ⟨hid, haff⟩ : ¬ v.id = "" ∧ ¬ v.affiliation = "" := by
      simpa [Option.all] using hwf
    cases pv with
    | pub => simp [resourceListVisible, resourceByIdVisible, canView]
    | priv =>
      refine ⟨?_, ?_, by simp, ?_⟩
      · show resourceListVisible (some v.id) (some v.affiliation) ⟨up, col, .priv⟩ = _
        simp only [resourceListVisible, canView]
        rw [if_neg (by simp [hid, haff])]
        rw [decide_eq_decide]
        exact or_congr eq_comm eq_comm
      · show resourceByIdVisible (some v.id) (some v.affiliation) ⟨up, col, .priv⟩ = _
        simp only [resourceByIdVisible, canView]
        rw [if_neg hid]
        rw [decide_eq_decide]
        exact or_congr eq_comm (by simp)
      · intro _
        simp [canView]

/-- Witness for `canView_contract`: a present viewer with non-empty id and
affiliation and a private resource of the same affiliation. -/
theorem canView_contract_witness :
    ((some ⟨"u1", "X"⟩ : Option Viewer).all (fun v => decide (¬ v.id = "" ∧ ¬ v.affiliation = "")) = true)
    ∧ (resourceListVisible ((some ⟨"u1", "X"⟩ : Option Viewer).map Viewer.id)
          ((some ⟨"u1", "X"⟩ : Option Viewer).map Viewer.affiliation) ⟨"u2", "X", .priv⟩
        = canView (some ⟨"u1", "X"⟩) ⟨"u2", "X", .priv⟩
      ∧ resourceByIdVisible ((some ⟨"u1", "X"⟩ : Option Viewer).map Viewer.id)
          ((some ⟨"u1", "X"⟩ : Option Viewer).map Viewer.affiliation) ⟨"u2", "X", .priv⟩
        = canView (some ⟨"u1", "X"⟩) ⟨"u2", "X", .priv⟩
      ∧ ((⟨"u2", "X", .priv⟩ : ResourceVis).privacy = .pub →
          canView (some ⟨"u1", "X"⟩) ⟨"u2", "X", .priv⟩ = true)
      ∧ ((⟨"u2", "X", .priv⟩ : ResourceVis).privacy = .priv →
          (canView (some ⟨"u1", "X"⟩) ⟨"u2", "X", .priv⟩ = true ↔
            ∃ v, (some ⟨"u1", "X"⟩ : Option Viewer) = some v ∧
              (v.id = (⟨"u2", "X", .priv⟩ : ResourceVis).uploaderId ∨
               v.affiliation = (⟨"u2", "X", .priv⟩ : ResourceVis).college)))) :=
  ⟨by decide, canView_contract (some ⟨"u1", "X"⟩) ⟨"u2", "X", .priv⟩ (by decide)⟩

/-- C8: a resource update rewrites only the client-updatable columns — it
leaves the affiliation snapshot `college`, the owner `uploader_id`,
`created_at`, and the aggregator-owned `average_rating`/`total_ratings` (as
well as `id` and `downloads`) unchanged — and a profile update writes only
the `profiles` table, leaving every resource row (hence its affiliation
snapshot) unchanged. -/
theorem resource_profile_update_frame (p : ResourceUpdateInput) (r : ResourceRow)
    (d : Directory) (uid : String) (q : ProfileUpdateInput) :
    (applyResourceUpdate p r).college = r.college
    ∧ (applyResourceUpdate p r).uploaderId = r.uploaderId
    ∧ (applyResourceUpdate p r).createdAt = r.createdAt
    ∧ (applyResourceUpdate p r).averageRating = r.averageRating
    ∧ (applyResourceUpdate p r).totalRatings = r.totalRatings
    ∧ (applyResourceUpdate p r).id = r.id
    ∧ (applyResourceUpdate p r).downloads = r.downloads
    ∧ (updateProfileOp d uid q).resources = d.resources :=
  ⟨rfl, rfl, rfl, rfl, rfl, rfl, rfl, rfl⟩

/-- Counterexample for C6: `fulfillRequest` performs no existence check, so
for a request id that matches no row it still responds 200 (success) — it
never produces the 404 NotFound outcome the claim requires for a missing
request. -/
theorem fulfillRequest_missing_request_cex :
    ¬ (∀ (requests : List RequestRow) (reqId rid : String),
        requests.all (fun q => decide (¬ q.id = reqId)) = true →
        (fulfillRequest requests reqId rid).2 = 404) := by
  intro h
  have hc := h [⟨"q1", "u1", .opened, none⟩] "q2" "r9" (by decide)
  simp [fulfillRequest] at hc

/-- C6 amended: `fulfillRequest` reports success (200) unconditionally; every
request row matching the id is set to `fulfilled` with the supplied resource
id (with no openness, ownership, or resource validation), every other row is
untouched, and when no row matches nothing changes and the caller still gets
200 — no NotFound outcome exists. -/
theorem fulfillRequest_unconditional (requests : List RequestRow) (reqId rid : String) :
    (fulfillRequest requests reqId rid).2 = 200
    ∧ ((fulfillRequest requests reqId rid).1.filter (fun q => decide (q.id = reqId))).all
        (fun q => decide (q.status = .fulfilled ∧ q.fulfilledResourceId = some rid)) = true
    ∧ (fulfillRequest requests reqId rid).1.filter (fun q => decide (¬ q.id = reqId))
        = requests.filter (fun q => decide (¬ q.id = reqId))
    ∧ (fulfillRequest requests reqId rid).1.length = requests.length := by
  refine ⟨rfl, ?_, ?_, by simp [fulfillRequest]⟩
  · rw [List.all_eq_true]
    intro q hq
    obtain ⟨hqmem, hqid⟩ := List.mem_filter.1 hq
    obtain ⟨q0, hq0, rfl⟩ := List.mem_map.1 hqmem
    by_cases h : q0.id = reqId
    · simp [h]
    · exfalso
      revert hqid
      simp [h]
  · show ((requests.map _).filter _ : List RequestRow) = _
    apply filter_map_eq_filter
    intro w _
    by_cases h : w.id = reqId
    · right
      constructor <;> simp [h]
    · left
      simp [h]

/-- Counterexample for C5: with an empty review table and one resource row,
a `createReview` whose aggregate write fails (`updOk = false`) still reports
the success outcome 201/created, while the stored aggregate stays (0, 0) even
though one review with rating 5 now exists — the caller observes success for
a mutation whose effect is not reflected in the aggregate. -/
theorem createReview_refresh_failure_cex :
    (createReviewF true false ⟨[], [⟨"r", 0, 0⟩]⟩ "u" "r" 5 "" 0 "v1").2 = ReviewOutcome.created
    ∧ (createReviewF true false ⟨[], [⟨"r", 0, 0⟩]⟩ "u" "r" 5 "" 0 "v1").1.resources
        = [⟨"r", 0, 0⟩]
    ∧ specCount (createReviewF true false ⟨[], [⟨"r", 0, 0⟩]⟩ "u" "r" 5 "" 0 "v1").1 "r" = 1
    ∧ specAvg (createReviewF true false ⟨[], [⟨"r", 0, 0⟩]⟩ "u" "r" 5 "" 0 "v1").1 "r" = 5 := by
  refine ⟨rfl, rfl, rfl, ?_⟩
  norm_num [createReviewF, refreshResourceRatingF, specAvg, specCount, reviewsFor,
    jsToFixed1, nearestFloat64, roundHalfEven]

/-- C5 amended: when the aggregate write inside `refreshResourceRating` fails,
a valid, non-duplicate `createReview` still returns the created/201 success
outcome, inserts the review, and leaves the `resources` rows (hence the stale
aggregates) unchanged; the failure is never surfaced to the caller. -/
theorem createReview_refresh_failure_reports_success (db : DB) (uid rid : String) (rating : Nat)
    (comment : String) (now : Int) (newId : String) (selOk : Bool)
    (hr : 1 ≤ rating ∧ rating ≤ 5)
    (hnd : db.reviews.find? (fun v => decide (v.resourceId = rid ∧ v.userId = uid)) = none) :
    (createReviewF selOk false db uid rid rating comment now newId).2 = ReviewOutcome.created
    ∧ (createReviewF selOk false db uid rid rating comment now newId).1.resources = db.resources
    ∧ (createReviewF selOk false db uid rid rating comment now newId).1.reviews
        = db.reviews ++ [⟨newId, rid, uid, rating, comment, now⟩] := by
  unfold createReviewF
  rw [if_neg (not_not_intro hr), hnd]
  exact ⟨rfl, rfl, rfl⟩

/-- Witness for `createReview_refresh_failure_reports_success` at a concrete
state with one resource and no reviews. -/
theorem createReview_refresh_failure_reports_success_witness :
    ((1 ≤ 5 ∧ 5 ≤ 5)
      ∧ (⟨[], [⟨"r", 0, 0⟩]⟩ : DB).reviews.find?
          (fun v => decide (v.resourceId = "r" ∧ v.userId = "u")) = none)
    ∧ ((createReviewF true false ⟨[], [⟨"r", 0, 0⟩]⟩ "u" "r" 5 "c" 7 "v1").2
        = ReviewOutcome.created
      ∧ (createReviewF true false ⟨[], [⟨"r", 0, 0⟩]⟩ "u" "r" 5 "c" 7 "v1").1.resources
        = (⟨[], [⟨"r", 0, 0⟩]⟩ : DB).resources
      ∧ (createReviewF true false ⟨[], [⟨"r", 0, 0⟩]⟩ "u" "r" 5 "c" 7 "v1").1.reviews
        = (⟨[], [⟨"r", 0, 0⟩]⟩ : DB).reviews ++ [⟨"v1", "r", "u", 5, "c", 7⟩]) :=
  ⟨⟨by decide, rfl⟩,
    createReview_refresh_failure_reports_success ⟨[], [⟨"r", 0, 0⟩]⟩ "u" "r" 5 "c" 7 "v1" true
      (by decide) rfl⟩

/-- C7: the leaderboard is a permutation of the profile list mapped to
entries whose points are the sum over the profile's own resources of 10 per
public and 5 per private resource (so a profile with no resources is included
with points 0, `pointsSum` of an empty filter), and the returned list is
ordered descending by points. -/
theorem computeLeaderboard_points_and_order (profiles : List ProfileLB)
    (resources : List ResourceLB) :
    (computeLeaderboard profiles resources).Perm
      (profiles.map (fun p =>
        { id := p.id, name := p.name, college := p.college, branch := p.branch,
          points := pointsSum p.id resources : LBEntry }))
    ∧ (computeLeaderboard profiles resources).Pairwise (fun a b => b.points ≤ a.points) := by
  constructor
  · simp only [computeLeaderboard]
    refine (List.mergeSort_perm _ _).trans ?_
    rw [leaderboard_entries_eq]
  · have htrans : ∀ (a b c : LBEntry),
        (fun a b : LBEntry => decide (b.points ≤ a.points)) a b = true →
        (fun a b : LBEntry => decide (b.points ≤ a.points)) b c = true →
        (fun a b : LBEntry => decide (b.points ≤ a.points)) a c = true := by
      intro a b c hab hbc
      simp only [decide_eq_true_eq] at hab hbc ⊢
      omega
    have htotal : ∀ (a b : LBEntry),
        ((fun a b : LBEntry => decide (b.points ≤ a.points)) a b
          || (fun a b : LBEntry => decide (b.points ≤ a.points)) b a) = true := by
      intro a b
      simp only [Bool.or_eq_true, decide_eq_true_eq]
      omega
    simp only [computeLeaderboard]
    exact (List.sorted_mergeSort htrans htotal _).imp (fun h => of_decide_eq_true h)

/-- C9: permuting the profile and resource inputs yields the same multiset of
per-profile point values (the leaderboard's points column is permutation
invariant, even though tie order is not specified). -/
theorem leaderboard_perm_invariant (ps ps' : List ProfileLB) (rs rs' : List ResourceLB)
    (hp : ps.Perm ps') (hr : rs.Perm rs') :
    ((computeLeaderboard ps rs).map (fun e => e.points)).Perm
      ((computeLeaderboard ps' rs').map (fun e => e.points)) := by
  have key : ∀ (qs : List ProfileLB) (ts : List ResourceLB),
      ((computeLeaderboard qs ts).map (fun e => e.points)).Perm
        (qs.map (fun p => pointsSum p.id ts)) := by
    intro qs ts
    simp only [computeLeaderboard]
    refine ((List.mergeSort_perm _ _).map _).trans ?_
    rw [List.map_map]
    rw [List.map_congr_left (fun p _ => ?_)]
    simp [Function.comp, lookupA_pointsByUser]
  have h3 : (ps.map (fun p => pointsSum p.id rs)).Perm
      (ps'.map (fun p => pointsSum p.id rs')) := by
    rw [List.map_congr_left (fun p _ => pointsSum_perm p.id hr)]
    exact hp.map _
  exact (key ps rs).trans (h3.trans (key ps' rs').symm)

/-- Witness for `leaderboard_perm_invariant` on two-element inputs reversed. -/
theorem leaderboard_perm_invariant_witness :
    (([⟨"a", "A", "C", "B"⟩, ⟨"b", "B", "C", "B"⟩] : List ProfileLB).Perm
        [⟨"b", "B", "C", "B"⟩, ⟨"a", "A", "C", "B"⟩]
      ∧ ([⟨"a", .pub⟩, ⟨"b", .priv⟩] : List ResourceLB).Perm [⟨"b", .priv⟩, ⟨"a", .pub⟩])
    ∧ ((computeLeaderboard [⟨"a", "A", "C", "B"⟩, ⟨"b", "B", "C", "B"⟩]
          [⟨"a", .pub⟩, ⟨"b", .priv⟩]).map (fun e => e.points)).Perm
        ((computeLeaderboard [⟨"b", "B", "C", "B"⟩, ⟨"a", "A", "C", "B"⟩]
          [⟨"b", .priv⟩, ⟨"a", .pub⟩]).map (fun e => e.points)) :=
  ⟨⟨by decide, by decide⟩,
    leaderboard_perm_invariant _ _ _ _ (by decide) (by decide)⟩

/-- A pairwise-distinct-pairs review table has at most one row per
(resourceId, reviewerId) pair. -/
theorem pairwise_filter_le_one {l : List ReviewR}
    (hp : l.Pairwise (fun a b => ¬ (a.resourceId = b.resourceId ∧ a.userId = b.userId)))
    (rid uid : String) :
    (l.filter (fun v => decide (v.resourceId = rid ∧ v.userId = uid))).length ≤ 1 := by
  induction l with
  | nil => simp
  | cons a l ih =>
    obtain ⟨ha', hp'⟩ := List.pairwise_cons.1 hp
    rw [List.filter_cons]
    by_cases ha : a.resourceId = rid ∧ a.userId = uid
    · rw [if_pos (by simp [ha.1, ha.2])]
      have hnil : l.filter (fun v => decide (v.resourceId = rid ∧ v.userId = uid)) = [] := by
        rw [List.filter_eq_nil_iff]
        intro b hb
        simp only [decide_eq_true_eq]
        intro hbp
        exact ha' b hb ⟨ha.1.trans hbp.1.symm, ha.2.trans hbp.2.symm⟩
      rw [hnil]
      simp
    · rw [if_neg (by simp [ha])]
      exact ih hp'

/-- Counterexample for C2: from the consistent nineteen-review state
`ratingTieState`, creating a twentieth review with rating 1 makes the twenty
ratings sum to 23, exact mean 1.15 — a decimal tie whose binary64 value lies
strictly below the tie.  The program stores average 1.1 with count 20
(`Number((23/20).toFixed(1))`, the `(1.15).toFixed(1)` case), while the
claim's half-up rounding prescribes 1.2: after this operation sequence the
stored `ratingAverage` is not the half-up rounded mean of the existing
reviews. -/
theorem rating_halfup_cex :
    DBInv ratingTieState
    ∧ ([ReviewOp.create "u20" "r" 1 "" 0 "v20"].foldl stepReview ratingTieState).resources
        = [⟨"r", 11 / 10, 20⟩]
    ∧ specAvgHalfUp ([ReviewOp.create "u20" "r" 1 "" 0 "v20"].foldl stepReview ratingTieState) "r"
        = 12 / 10
    ∧ ¬ ((11 : ℚ) / 10 = 12 / 10) := by
  have hstep : [ReviewOp.create "u20" "r" 1 "" 0 "v20"].foldl stepReview ratingTieState
      = refreshResourceRating ratingTieState' "r" := rfl
  have hfor : reviewsFor ratingTieState' "r" = ratingTieState'.reviews := by decide
  have hlen : ratingTieState'.reviews.length = 20 := by decide
  have hsum : ((ratingTieState'.reviews.map (fun v => (v.rating : ℚ))).sum) = 23 := by
    norm_num [ratingTieState', ratingTieState]
  have hfix : jsToFixed1 ((23 : ℚ) / 20) = 11 / 10 := by
    norm_num [jsToFixed1, nearestFloat64, roundHalfEven]
  refine ⟨⟨?_, by decide⟩, ?_, ?_, by norm_num⟩
  · intro r hr
    have hr' : r = (⟨"r", 12 / 10, 19⟩ : ResourceAgg) := by
      simpa [ratingTieState] using hr
    subst hr'
    refine ⟨?_, by decide⟩
    show (12 : ℚ) / 10 = specAvg ratingTieState "r"
    have hfor19 : reviewsFor ratingTieState "r" = ratingTieState.reviews := by decide
    have hcnt19 : specCount ratingTieState "r" = 19 := by decide
    simp only [specAvg, hcnt19, hfor19]
    norm_num [ratingTieState, jsToFixed1, nearestFloat64, roundHalfEven]
  · rw [hstep]
    simp only [refreshResourceRating, hfor, hlen, hsum]
    norm_num [ratingTieState', ratingTieState, hfix]
  · rw [hstep]
    have h20 : reviewsFor (refreshResourceRating ratingTieState' "r") "r"
        = ratingTieState'.reviews := by
      have hrev : (refreshResourceRating ratingTieState' "r").reviews
          = ratingTieState'.reviews := rfl
      calc reviewsFor (refreshResourceRating ratingTieState' "r") "r"
          = reviewsFor ratingTieState' "r" := by simp [reviewsFor, hrev]
        _ = ratingTieState'.reviews := hfor
    simp only [specAvgHalfUp, specCount, h20, hlen, hsum]
    norm_num [round1]

/-- C2 amended: starting from any consistent state, after any sequence of
review create/update/delete operations every resource row's `average_rating`
equals the mean of the reviews currently attached to it as the program
computes it — the binary64 mean rounded by `toFixed(1)`, which deviates from
the spec's half-up rounding at decimal ties stored below the tie — and
`total_ratings` equals their count (that is what `AggOK` states); a resource
with no reviews carries average 0 and count 0. -/
theorem rating_aggregate_consistent (db : DB) (ops : List ReviewOp) (h : DBInv db) :
    AggOK (ops.foldl stepReview db)
    ∧ ∀ r ∈ (ops.foldl stepReview db).resources,
        reviewsFor (ops.foldl stepReview db) r.id = [] →
        r.averageRating = 0 ∧ r.totalRatings = 0 := by
  have hinv := foldl_stepReview_DBInv ops db h
  refine ⟨hinv.1, ?_⟩
  intro r hr hempty
  have hro := hinv.1 r hr
  rw [hro.1, hro.2]
  refine ⟨?_, ?_⟩
  · simp [specAvg, specCount, hempty]
  · simp [specCount, hempty]

/-- Witness for `rating_aggregate_consistent`: one resource, a create of
rating 4, an update to rating 2, then a delete, all inside the lock window. -/
theorem rating_aggregate_consistent_witness :
    DBInv ⟨[], [⟨"r", 0, 0⟩]⟩
    ∧ (AggOK (([ReviewOp.create "u" "r" 4 "" 0 "v1",
          ReviewOp.update "u" "v1" (some 2) none 0,
          ReviewOp.delete "u" "v1" 1000]).foldl stepReview ⟨[], [⟨"r", 0, 0⟩]⟩)
      ∧ ∀ r ∈ (([ReviewOp.create "u" "r" 4 "" 0 "v1",
            ReviewOp.update "u" "v1" (some 2) none 0,
            ReviewOp.delete "u" "v1" 1000]).foldl stepReview ⟨[], [⟨"r", 0, 0⟩]⟩).resources,
          reviewsFor (([ReviewOp.create "u" "r" 4 "" 0 "v1",
            ReviewOp.update "u" "v1" (some 2) none 0,
            ReviewOp.delete "u" "v1" 1000]).foldl stepReview ⟨[], [⟨"r", 0, 0⟩]⟩) r.id = [] →
          r.averageRating = 0 ∧ r.totalRatings = 0) :=
  ⟨by decide,
    rating_aggregate_consistent ⟨[], [⟨"r", 0, 0⟩]⟩
      [ReviewOp.create "u" "r" 4 "" 0 "v1",
        ReviewOp.update "u" "v1" (some 2) none 0,
        ReviewOp.delete "u" "v1" 1000] (by decide)⟩

/-- C3: starting from any consistent state, after any sequence of review
operations at most one review exists per (resourceId, reviewerId) pair, and a
`createReview` with a valid rating for a pair that already has a review
returns the 409 DuplicateReview outcome with the state unchanged. -/
theorem review_uniqueness_enforced (db : DB) (ops : List ReviewOp) (h : DBInv db) :
    PairOK (ops.foldl stepReview db)
    ∧ (∀ rid uid, ((ops.foldl stepReview db).reviews.filter
        (fun v => decide (v.resourceId = rid ∧ v.userId = uid))).length ≤ 1)
    ∧ (∀ uid rid rating comment now newId,
        1 ≤ rating → rating ≤ 5 →
        (∃ v ∈ db.reviews, v.resourceId = rid ∧ v.userId = uid) →
        createReview db uid rid rating comment now newId = (db, ReviewOutcome.duplicateReview)) := by
  have hinv := foldl_stepReview_DBInv ops db h
  refine ⟨hinv.2, ?_, ?_⟩
  · intro rid uid
    exact pairwise_filter_le_one hinv.2 rid uid
  · intro uid rid rating comment now newId h1 h5 hex
    unfold createReview
    rw [if_neg (not_not_intro ⟨h1, h5⟩)]
    obtain ⟨v, hv, hvp⟩ := hex
    have hsome : (db.reviews.find? (fun v => decide (v.resourceId = rid ∧ v.userId = uid))).isSome :=
      List.find?_isSome.2 ⟨v, hv, by simp [hvp.1, hvp.2]⟩
    obtain ⟨w, hw⟩ := Option.isSome_iff_exists.1 hsome
    rw [hw]

/-- Witness for `review_uniqueness_enforced`: a state holding one review and
its resource, followed by one duplicate create attempt. -/
theorem review_uniqueness_enforced_witness :
    DBInv ⟨[⟨"v1", "r", "u", 4, "", 0⟩], [⟨"r", 4, 1⟩]⟩
    ∧ (PairOK (([ReviewOp.create "u" "r" 3 "" 0 "v2"]).foldl stepReview
          ⟨[⟨"v1", "r", "u", 4, "", 0⟩], [⟨"r", 4, 1⟩]⟩)
      ∧ (∀ rid uid, ((([ReviewOp.create "u" "r" 3 "" 0 "v2"]).foldl stepReview
            ⟨[⟨"v1", "r", "u", 4, "", 0⟩], [⟨"r", 4, 1⟩]⟩).reviews.filter
          (fun v => decide (v.resourceId = rid ∧ v.userId = uid))).length ≤ 1)
      ∧ (∀ uid rid rating comment now newId,
          1 ≤ rating → rating ≤ 5 →
          (∃ v ∈ (⟨[⟨"v1", "r", "u", 4, "", 0⟩], [⟨"r", 4, 1⟩]⟩ : DB).reviews,
            v.resourceId = rid ∧ v.userId = uid) →
          createReview ⟨[⟨"v1", "r", "u", 4, "", 0⟩], [⟨"r", 4, 1⟩]⟩ uid rid rating comment now newId
            = (⟨[⟨"v1", "r", "u", 4, "", 0⟩], [⟨"r", 4, 1⟩]⟩, ReviewOutcome.duplicateReview))) :=
  by
  have hinv : DBInv ⟨[⟨"v1", "r", "u", 4, "", 0⟩], [⟨"r", 4, 1⟩]⟩ := by
    constructor
    · intro r hr
      simp only [List.mem_singleton] at hr
      subst hr
      refine ⟨?_, ?_⟩
      · show (4 : ℚ) = specAvg _ _
        simp [specAvg, specCount, reviewsFor]
        norm_num [jsToFixed1, nearestFloat64, roundHalfEven]
      · show 1 = specCount _ _
        simp [specCount, reviewsFor]
    · simp [PairOK]
  exact ⟨hinv,
    review_uniqueness_enforced ⟨[⟨"v1", "r", "u", 4, "", 0⟩], [⟨"r", 4, 1⟩]⟩
      [ReviewOp.create "u" "r" 3 "" 0 "v2"] hinv⟩
